import Mathlib

/-
Verification development for the SmarterBoard component-classifier pipeline
(src/src/ComponentClassifier.py).  The Python functions are embedded as Lean
definitions over exact arithmetic:

* integer-valued images (the pipeline converts every input to a signed
  integer array before thresholding) are `List (List ℤ)`;
* the standardized images that feed feature extraction are `List (List ℚ)`;
* library responses that carry transcendental values (Gabor magnitudes,
  log-transformed moments) live in `ℝ`, with `Option ℝ` used where the
  floating-point code can produce NaN (`none` models NaN).

External library routines that the Python code calls are embedded from their
documented semantics: `skimage.filter.threshold_otsu` / `exposure.histogram`
(the pre-0.12 releases that still export `skimage.filter` and
`gabor_filter`), `np.histogram`, `cv2.moments` / `cv2.HuMoments`, and
`cv2.resize`.  The Gabor convolution itself is kept as an explicit capability
parameter (`GaborCap`), exactly as `scaler` and the classifier are opaque
capabilities of `predict`.
-/

namespace SmarterBoard

/-- Integer-valued image: one inner list per row of pixels. -/
abbrev IMat := List (List ℤ)

/-- Rational-valued image (exact model of the float arrays). -/
abbrev QMat := List (List ℚ)

/-- Real-valued image (Gabor magnitude maps). -/
abbrev RMat := List (List ℝ)

/-- Boolean ink-mask image, the input format of `ComponentClassifier.predict`. -/
abbrev BMat := List (List Bool)

/-! ### skimage integer histogram and Otsu threshold

`skimage.exposure.histogram` on an integer array bincounts the pixel values
and clips leading all-zero bins, so the returned bins run from the smallest
to the largest pixel value.  `threshold_otsu` then maximises the inter-class
variance over all cut positions; on a single-bin (flat) image the variance
array is empty and `np.argmax` raises, which we model as `none`. -/

/-- `image.ravel()`: all pixel values of an integer image, row-major. -/
def flatVals (img : IMat) : List ℤ := img.flatten

/-- Smallest pixel value (`np.min`; junk value 0 for the empty image, where
numpy raises). -/
def histLo (img : IMat) : ℤ :=
  match flatVals img with
  | [] => 0
  | v :: vs => vs.foldl min v

/-- Largest pixel value (`np.max`). -/
def histHi (img : IMat) : ℤ :=
  match flatVals img with
  | [] => 0
  | v :: vs => vs.foldl max v

/-- Number of histogram bins after clipping: one bin per integer value from
`histLo` to `histHi`. -/
def histN (img : IMat) : ℕ := (histHi img - histLo img + 1).toNat

/-- Bin counts of `skimage.exposure.histogram` on an integer image (as
floats, mirroring `hist.astype(float)` inside `threshold_otsu`). -/
def otsuHist (img : IMat) : List ℚ :=
  (List.range (histN img)).map (fun (k : ℕ) => ((flatVals img).count (histLo img + (k : ℤ)) : ℚ))

/-- Bin centers of `skimage.exposure.histogram` on an integer image. -/
def otsuCenters (img : IMat) : List ℚ :=
  (List.range (histN img)).map (fun (k : ℕ) => ((histLo img + (k : ℤ) : ℤ) : ℚ))

/-- `np.cumsum` of a list. -/
def cumsum (l : List ℚ) : List ℚ := (l.scanl (· + ·) 0).drop 1

/-- `np.cumsum(l[::-1])[::-1]`: suffix sums. -/
def revCumsum (l : List ℚ) : List ℚ := (cumsum l.reverse).reverse

/-- `np.argmax`: index of the first maximal element (junk value 0 on the
empty list, where numpy raises). -/
def npArgmaxAux : ℕ → ℕ → ℚ → List ℚ → ℕ
  | _, bi, _, [] => bi
  | i, bi, bv, x :: xs =>
    if bv < x then npArgmaxAux (i + 1) i x xs else npArgmaxAux (i + 1) bi bv xs

/-- `np.argmax` over a rational list. -/
def npArgmax : List ℚ → ℕ
  | [] => 0
  | x :: xs => npArgmaxAux 1 0 x xs

/-- `weight1 = np.cumsum(hist)`. -/
def otsuW1 (img : IMat) : List ℚ := cumsum (otsuHist img)

/-- `weight2 = np.cumsum(hist[::-1])[::-1]`. -/
def otsuW2 (img : IMat) : List ℚ := revCumsum (otsuHist img)

/-- `hist * bin_centers`, elementwise. -/
def otsuHC (img : IMat) : List ℚ :=
  List.zipWith (fun a b => a * b) (otsuHist img) (otsuCenters img)

/-- `mean1 = np.cumsum(hist * bin_centers) / weight1`. -/
def otsuMean1 (img : IMat) : List ℚ :=
  List.zipWith (fun a b => a / b) (cumsum (otsuHC img)) (otsuW1 img)

/-- `mean2 = (np.cumsum((hist*bin_centers)[::-1]) / weight2[::-1])[::-1]`. -/
def otsuMean2 (img : IMat) : List ℚ :=
  List.zipWith (fun a b => a / b) (revCumsum (otsuHC img)) (otsuW2 img)

/-- `variance12 = weight1[:-1] * weight2[1:] * (mean1[:-1] - mean2[1:])**2`. -/
def otsuVariance (img : IMat) : List ℚ :=
  List.zipWith (fun p q => p.1 * q.1 * (p.2 - q.2) ^ 2)
    ((otsuW1 img).dropLast.zip (otsuMean1 img).dropLast)
    (((otsuW2 img).drop 1).zip ((otsuMean2 img).drop 1))

/-- `skimage.filter.threshold_otsu` on an integer image.  `none` models the
`ValueError` that `np.argmax` raises when `variance12` is empty (flat
image). -/
def threshold_otsu (img : IMat) : Option ℚ :=
  if (otsuVariance img).isEmpty then none
  else some ((otsuCenters img).dropLast.getD (npArgmax (otsuVariance img)) 0)

namespace Preprocessing

/-- `Preprocessing.binary_from_thresh`: `binary = img < thresh` with the Otsu
threshold; `none` models the propagated exception when the threshold
computation fails. -/
def binary_from_thresh (img : IMat) : Option (List (List Bool)) :=
  (threshold_otsu img).map
    (fun thresh => img.map (fun row => row.map (fun v => decide ((v : ℚ) < thresh))))

end Preprocessing

/-! ### cv2.resize with INTER_CUBIC

The geometry of `cv2.resize(img, (w, h))` — the output has `h` rows and `w`
columns and each output pixel samples the source at
`(dst + 0.5) * src_size / dst_size - 0.5` with a 4-tap cubic-convolution
kernel (`A = -0.75`) and replicated borders — is embedded in exact rational
arithmetic.  (The C implementation evaluates the same weights in fixed-point
and saturates the result to the input dtype; no claim below depends on the
interpolated values, only on the output geometry.) -/

/-- Python `int(...)` applied to a float: truncation toward zero. -/
def pyInt (q : ℚ) : ℤ := if q < 0 then -⌊-q⌋ else ⌊q⌋

/-- Pixel access with replicated borders (`cv2.BORDER_REPLICATE` clamping,
which is what `cv2.resize` effectively does at the image edge). -/
def pixAt (img : QMat) (r c : ℤ) : ℚ :=
  let row := img.getD (min (max r 0) ((img.length : ℤ) - 1)).toNat []
  row.getD (min (max c 0) ((row.length : ℤ) - 1)).toNat 0

/-- The four cubic-convolution weights of the OpenCV `interpolateCubic`
(`A = -0.75`) for a fractional offset `f`. -/
def cubicCoeffs (f : ℚ) : List ℚ :=
  let A : ℚ := -3 / 4
  let c0 := ((A * (f + 1) - 5 * A) * (f + 1) + 8 * A) * (f + 1) - 4 * A
  let c1 := ((A + 2) * f - (A + 3)) * f * f + 1
  let c2 := ((A + 2) * (1 - f) - (A + 3)) * (1 - f) * (1 - f) + 1
  [c0, c1, c2, 1 - c0 - c1 - c2]

/-- Bicubic sample of the source image at real-valued coordinates
`(yf, xf)`. -/
def cubicSample (img : QMat) (yf xf : ℚ) : ℚ :=
  let y0 := ⌊yf⌋
  let x0 := ⌊xf⌋
  let wy := cubicCoeffs (yf - y0)
  let wx := cubicCoeffs (xf - x0)
  (wy.enum.map (fun wi =>
    wi.2 * (wx.enum.map (fun wj =>
      wj.2 * pixAt img (y0 - 1 + (wi.1 : ℤ)) (x0 - 1 + (wj.1 : ℤ)))).sum)).sum

/-- `cv2.resize(img, (w, h), interpolation=cv2.INTER_CUBIC)`: `h` rows by
`w` columns. -/
def cv2_resize (img : QMat) (w h : ℕ) : QMat :=
  (List.range h).map (fun (r : ℕ) =>
    (List.range w).map (fun (c : ℕ) =>
      cubicSample img
        (((r : ℚ) + 1 / 2) * ((img.length : ℚ) / (h : ℚ)) - 1 / 2)
        (((c : ℚ) + 1 / 2) * (((img.headD []).length : ℚ) / (w : ℚ)) - 1 / 2)))

namespace Preprocessing

/-- `Preprocessing.scale_image`: resizes to
`(int(scaler*width), int(scaler*height))` computed from the explicit
`org_dim = (width, height)` argument, never from the own size of the input image --
size. -/
def scale_image (img : QMat) (scaler : ℚ) (org_dim : ℤ × ℤ) : QMat :=
  let output_width := (pyInt (scaler * (org_dim.1 : ℚ))).toNat
  let output_height := (pyInt (scaler * (org_dim.2 : ℚ))).toNat
  cv2_resize img output_width output_height

/-- `Preprocessing.standardize_shape`: `scale_image` with the fixed
`scaler = .25` and `org_dim = (256, 153)`. -/
def standardize_shape (img : QMat) : QMat :=
  scale_image img (1 / 4) (256, 153)

end Preprocessing

/-! ### Gabor filtering and texture histograms

`skimage.filter.gabor_filter(img, frequency, theta, bandwidth)` is an
external convolution returning a `(real, imag)` pair of response maps; it is
kept as an explicit capability parameter, the same way `predict` keeps its
`scaler` and classifier opaque.  Everything the repository computes on top of
the response — magnitude, histograms, means — is embedded. -/

/-- The `skimage.filter.gabor_filter` capability:
`(image, frequency, theta, bandwidth) ↦ (real part, imaginary part)`. -/
def GaborCap : Type := QMat → ℚ → ℝ → ℚ → RMat × RMat

/-- `np.sqrt(np.square(real) + np.square(imag))`, elementwise. -/
noncomputable def magnitudeMap (re im : RMat) : RMat :=
  List.zipWith (fun r i => List.zipWith (fun a b => Real.sqrt (a ^ 2 + b ^ 2)) r i) re im

namespace Preprocessing

/-- `Preprocessing.angle_pass_filter`: magnitude of the Gabor response at a
given angle. -/
noncomputable def angle_pass_filter (g : GaborCap) (img : QMat) (frequency : ℚ)
    (theta : ℝ) (bandwidth : ℚ) : RMat :=
  let resp := g img frequency theta bandwidth
  magnitudeMap resp.1 resp.2

/-- `Preprocessing.frontslash_filter`: `theta = np.pi * (1.0 / denom)`. -/
noncomputable def frontslash_filter (g : GaborCap) (img : QMat)
    (denom freq bandwidth : ℚ) : RMat :=
  angle_pass_filter g img freq (Real.pi * (1 / (denom : ℝ))) bandwidth

/-- `Preprocessing.backslash_filter`: `theta = np.pi * (-1.0 / denom)`. -/
noncomputable def backslash_filter (g : GaborCap) (img : QMat)
    (denom freq bandwidth : ℚ) : RMat :=
  angle_pass_filter g img freq (Real.pi * (-1 / (denom : ℝ))) bandwidth

end Preprocessing

/-- `np.histogram(xs, nbins)` bin counts: `nbins` equal-width bins between
the data minimum and maximum (expanded by 1/2 on each side when the data is
constant, as numpy does); every bin is half-open except the last, which also
contains the right edge.  `skimage.exposure.histogram` takes this path for
float images such as the Gabor magnitude maps. -/
noncomputable def npHistogram (xs : List ℝ) (nbins : ℕ) : List ℕ :=
  match xs with
  | [] => List.replicate nbins 0
  | x :: rest =>
    let lo := rest.foldl min x
    let hi := rest.foldl max x
    let lo2 := if lo = hi then lo - 1 / 2 else lo
    let hi2 := if lo = hi then hi + 1 / 2 else hi
    (List.range nbins).map (fun (k : ℕ) =>
      let a := lo2 + (hi2 - lo2) * (k : ℝ) / (nbins : ℝ)
      let b := lo2 + (hi2 - lo2) * ((k : ℝ) + 1) / (nbins : ℝ)
      if k + 1 = nbins then (x :: rest).countP (fun v => decide (a ≤ v ∧ v ≤ hi2))
      else (x :: rest).countP (fun v => decide (a ≤ v ∧ v < b)))

namespace FeatureExtraction

/-- `FeatureExtraction.denom = 4.0`. -/
def denom : ℚ := 4

/-- `FeatureExtraction.freq = 0.50`. -/
def freq : ℚ := 1 / 2

/-- `FeatureExtraction.bw = 0.80`. -/
def bw : ℚ := 4 / 5

/-- `FeatureExtraction.mean_exposure_hist`: histogram each image with
`nbins` bins, sum the histograms elementwise (`np.sum(hists, axis=0)`) and
divide by the number of images. -/
noncomputable def mean_exposure_hist (nbins : ℕ) (images : List RMat) : List ℝ :=
  let hists := images.map (fun img => (npHistogram img.flatten nbins).map (fun (n : ℕ) => (n : ℝ)))
  (hists.foldl (fun acc h => List.zipWith (fun a b => a + b) acc h)
    (List.replicate nbins 0)).map (fun s => s / (images.length : ℝ))

/-- `FeatureExtraction.mean_exposure_hist_from_gabor`: mean histogram of the
frontslash and backslash filter magnitudes, using the fixed tuning
constants. -/
noncomputable def mean_exposure_hist_from_gabor (g : GaborCap) (img : QMat)
    (nbins : ℕ) : List ℝ :=
  let fs := Preprocessing.frontslash_filter g img denom freq bw
  let bs := Preprocessing.backslash_filter g img denom freq bw
  mean_exposure_hist nbins [fs, bs]

end FeatureExtraction

/-! ### cv2.moments / cv2.HuMoments

Exact embedding of the OpenCV moment computation: raw spatial moments are the
usual power sums; central moments follow the OpenCV `completeMomentState`
formulas; normalized central moments divide by `m00²` (second order) and by
`m00² · sqrt(m00)` (third order), with everything defined as 0 when
`m00 = 0`, as OpenCV does. -/

/-- Raw spatial moment `m_pq = Σ_y Σ_x img[y][x] · x^p · y^q` (x = column
index, y = row index). -/
def mSum (img : QMat) (p q : ℕ) : ℚ :=
  (img.enum.map (fun r =>
    (r.2.enum.map (fun c => c.2 * (c.1 : ℚ) ^ p * (r.1 : ℚ) ^ q)).sum)).sum

/-- `m00`. -/
def m00 (img : QMat) : ℚ := mSum img 0 0

/-- Centroid x-coordinate (`0` when `m00 = 0`, as in OpenCV). -/
def centroidX (img : QMat) : ℚ := if m00 img = 0 then 0 else mSum img 1 0 / m00 img

/-- Centroid y-coordinate (`0` when `m00 = 0`). -/
def centroidY (img : QMat) : ℚ := if m00 img = 0 then 0 else mSum img 0 1 / m00 img

/-- Central moment `mu20`. -/
def mu20 (img : QMat) : ℚ := mSum img 2 0 - mSum img 1 0 * centroidX img

/-- Central moment `mu11`. -/
def mu11 (img : QMat) : ℚ := mSum img 1 1 - mSum img 1 0 * centroidY img

/-- Central moment `mu02`. -/
def mu02 (img : QMat) : ℚ := mSum img 0 2 - mSum img 0 1 * centroidY img

/-- Central moment `mu30`. -/
def mu30 (img : QMat) : ℚ :=
  mSum img 3 0 - centroidX img * (3 * mu20 img + centroidX img * mSum img 1 0)

/-- Central moment `mu21`. -/
def mu21 (img : QMat) : ℚ :=
  mSum img 2 1 - centroidX img * (2 * mu11 img + centroidX img * mSum img 0 1) -
    centroidY img * mu20 img

/-- Central moment `mu12`. -/
def mu12 (img : QMat) : ℚ :=
  mSum img 1 2 - centroidY img * (2 * mu11 img + centroidY img * mSum img 1 0) -
    centroidX img * mu02 img

/-- Central moment `mu03`. -/
def mu03 (img : QMat) : ℚ :=
  mSum img 0 3 - centroidY img * (3 * mu02 img + centroidY img * mSum img 0 1)

/-- `1/m00`, or `0` when `m00 = 0` (the OpenCV `inv_m00`). -/
def invM00 (img : QMat) : ℚ := if m00 img = 0 then 0 else 1 / m00 img

/-- Normalized central moment `nu20 = mu20 · inv_m00²`. -/
noncomputable def nu20 (img : QMat) : ℝ := ((mu20 img * invM00 img ^ 2 : ℚ) : ℝ)

/-- Normalized central moment `nu11`. -/
noncomputable def nu11 (img : QMat) : ℝ := ((mu11 img * invM00 img ^ 2 : ℚ) : ℝ)

/-- Normalized central moment `nu02`. -/
noncomputable def nu02 (img : QMat) : ℝ := ((mu02 img * invM00 img ^ 2 : ℚ) : ℝ)

/-- Normalized central moment `nu30 = mu30 · inv_m00² · sqrt|inv_m00|`. -/
noncomputable def nu30 (img : QMat) : ℝ :=
  ((mu30 img * invM00 img ^ 2 : ℚ) : ℝ) * Real.sqrt |((invM00 img : ℚ) : ℝ)|

/-- Normalized central moment `nu21`. -/
noncomputable def nu21 (img : QMat) : ℝ :=
  ((mu21 img * invM00 img ^ 2 : ℚ) : ℝ) * Real.sqrt |((invM00 img : ℚ) : ℝ)|

/-- Normalized central moment `nu12`. -/
noncomputable def nu12 (img : QMat) : ℝ :=
  ((mu12 img * invM00 img ^ 2 : ℚ) : ℝ) * Real.sqrt |((invM00 img : ℚ) : ℝ)|

/-- Normalized central moment `nu03`. -/
noncomputable def nu03 (img : QMat) : ℝ :=
  ((mu03 img * invM00 img ^ 2 : ℚ) : ℝ) * Real.sqrt |((invM00 img : ℚ) : ℝ)|

namespace FeatureExtraction

/-- `cv2.HuMoments(cv2.moments(img))`: the seven Hu invariants, in the OpenCV
formulas. -/
noncomputable def huRaw (img : QMat) : List ℝ :=
  let t0 := nu30 img + nu12 img
  let t1 := nu21 img + nu03 img
  let t2 := nu20 img - nu02 img
  let t3 := nu30 img - 3 * nu12 img
  let t4 := 3 * nu21 img - nu03 img
  [nu20 img + nu02 img,
   t2 ^ 2 + 4 * nu11 img ^ 2,
   t3 ^ 2 + t4 ^ 2,
   t0 ^ 2 + t1 ^ 2,
   t3 * t0 * (t0 ^ 2 - 3 * t1 ^ 2) + t4 * t1 * (3 * t0 ^ 2 - t1 ^ 2),
   t2 * (t0 ^ 2 - t1 ^ 2) + 4 * nu11 img * t0 * t1,
   t4 * t0 * (t0 ^ 2 - 3 * t1 ^ 2) - t3 * t1 * (3 * t0 ^ 2 - t1 ^ 2)]

/-- One component of `-np.sign(raw) * np.log10(np.abs(raw))`.  At `v = 0`
numpy computes `-sign(0) * log10(0) = (-0.0) * (-inf) = NaN`; `none` models
that NaN.  For `v ≠ 0` the value is the finite real
`-sign(v) * log10 |v|`. -/
noncomputable def logTrans (v : ℝ) : Option ℝ :=
  if v = 0 then none else some (-(Real.sign v) * Real.logb 10 |v|)

/-- `FeatureExtraction.moments_hu`: the log-transformed Hu moments.  Entries
are `Option ℝ` because the float code can produce NaN (modelled `none`). -/
noncomputable def moments_hu (img : QMat) : List (Option ℝ) :=
  (huRaw img).map logTrans

/-- `FeatureExtraction.moments_nbins`: `np.hstack((moments, gabor_hist))`.
Histogram entries are always finite, hence wrapped in `some`. -/
noncomputable def moments_nbins (g : GaborCap) (image : QMat) (nbins : ℕ) :
    List (Option ℝ) :=
  moments_hu image ++ (mean_exposure_hist_from_gabor g image nbins).map some

end FeatureExtraction

/-- One row of the feature matrix (`Option ℝ` entries; `none` models NaN). -/
abbrev FeatureVec := List (Option ℝ)

namespace Utils

/-- Modelled from the spec: `Utils.vStackMatrices` (the file `utils.py` of the repository is not in the sources).  Per the matrix-assembly interface of the spec
it appends the new feature vector as the next row of the matrix, starting a
fresh one-row matrix when no matrix exists yet (`X = None`). -/
def vStackMatrices (X : Option (List FeatureVec)) (row : FeatureVec) :
    Option (List FeatureVec) :=
  match X with
  | none => some [row]
  | some rows => some (rows ++ [row])

end Utils

namespace ComponentClassifier

/-- The `np.array(boolean); np.array(boolean, dtype=int16)` conversion at
the top of the `predict` loop: a boolean ink mask becomes a 0/1 integer
image. -/
def toInt16 (image : BMat) : QMat :=
  image.map (fun row => row.map (fun b => if b then (1 : ℚ) else 0))

/-- `ComponentClassifier.predict`.  The externally supplied capabilities are
parameters: `g` the Gabor convolution, `clf` the classifier
(`predict(matrix) -> integer ids`), `scaler` (`transform`; it receives
`Option` because the Python code passes `X = None` through unchanged on an
empty batch), and `mapLabel` the repository lookup `Utils.map_label_to_str`
integer-to-string lookup (in the absent `utils.py`; the spec keeps it
opaque). -/
noncomputable def predict (g : GaborCap) (images : List BMat)
    (clf : List FeatureVec → List ℤ) (nbins : ℕ)
    (scaler : Option (List FeatureVec) → List FeatureVec)
    (mapLabel : ℤ → String) : List String :=
  let X := images.foldl (fun X image =>
    Utils.vStackMatrices X
      (FeatureExtraction.moments_nbins g
        (Preprocessing.standardize_shape (toInt16 image)) nbins)) none
  let Xs := scaler X
  let y_pred := clf Xs
  y_pred.map mapLabel

end ComponentClassifier

/-- A concrete (trivial) Gabor capability, used to instantiate the
capability-parameterized theorems at closed inputs: it returns the image
itself as both response parts. -/
noncomputable def gaborTriv : GaborCap := fun img _ _ _ =>
  (img.map (fun row => row.map (fun (v : ℚ) => (v : ℝ))),
   img.map (fun row => row.map (fun (v : ℚ) => (v : ℝ))))

/-! ### Helper lemmas -/

theorem npHistogram_length (xs : List ℝ) (nbins : ℕ) :
    (npHistogram xs nbins).length = nbins := by
  cases xs
  · simp [npHistogram]
  · simp only [npHistogram, List.length_map, List.length_range]

theorem foldl_zipWith_add_length (hists : List (List ℝ)) :
    ∀ acc : List ℝ, (∀ h ∈ hists, h.length = acc.length) →
      (hists.foldl (fun a h => List.zipWith (fun x y => x + y) a h) acc).length =
        acc.length := by
  induction hists with
  | nil => intro acc _; rfl
  | cons h t ih =>
    intro acc hall
    have h1 : (List.zipWith (fun x y => x + y) acc h).length = acc.length := by
      have := hall h (by simp)
      simp [List.length_zipWith, this]
    have h2 : ∀ h' ∈ t, h'.length = (List.zipWith (fun x y => x + y) acc h).length := by
      intro h' hh'
      rw [h1]
      exact hall h' (by simp [hh'])
    simp only [List.foldl_cons]
    rw [ih _ h2, h1]

theorem mean_exposure_hist_length (nbins : ℕ) (images : List RMat) :
    (FeatureExtraction.mean_exposure_hist nbins images).length = nbins := by
  unfold FeatureExtraction.mean_exposure_hist
  simp only [List.length_map]
  rw [foldl_zipWith_add_length]
  · simp
  · intro h hh
    simp only [List.mem_map] at hh
    obtain ⟨img, _, rfl⟩ := hh
    simp only [List.length_map, List.length_replicate, npHistogram_length]

theorem moments_hu_length (img : QMat) :
    (FeatureExtraction.moments_hu img).length = 7 := by
  simp [FeatureExtraction.moments_hu, FeatureExtraction.huRaw]

/-! ### Claim theorems -/

/-- C2 (amended): for every image and every `nbins`, the assembled feature
vector `moments_nbins(image, nbins)` has length exactly `7 + nbins`,
independent of the input image resolution; in particular `nbins = 16`
yields length 23 (not the 39 the scenario of the claim asserts — the mean of the
two filter histograms contributes `nbins` entries, not `2·nbins`). -/
theorem moments_nbins_length (g : GaborCap) (img : QMat) (nbins : ℕ) :
    (FeatureExtraction.moments_nbins g img nbins).length = 7 + nbins ∧
      (FeatureExtraction.moments_nbins g img 16).length = 23 := by
  constructor <;>
    simp [FeatureExtraction.moments_nbins, moments_hu_length,
      FeatureExtraction.mean_exposure_hist_from_gabor, mean_exposure_hist_length]

/-- C2 counterexample: at `nbins = 16` the feature vector of a concrete
one-pixel image has length 23, not 39 as the scenario of the claim demands. -/
theorem moments_nbins_length_16_not_39 :
    ¬ (FeatureExtraction.moments_nbins gaborTriv [[1]] 16).length = 39 := by
  have h : (FeatureExtraction.moments_nbins gaborTriv [[1]] 16).length = 23 := by
    simp [FeatureExtraction.moments_nbins, moments_hu_length,
      FeatureExtraction.mean_exposure_hist_from_gabor, mean_exposure_hist_length]
  omega

/-- C3: `standardize_shape` always returns a 38-row by 64-column image
(width 64, height 38): the output dimensions come only from the fixed factor
0.25 and the reference dimensions (256, 153), never from the own size of the
input image, as the universal quantification over `img` shows. -/
theorem standardize_shape_fixed_dims (img : QMat)
    (h : 0 < img.length ∧ 0 < (img.headD []).length) :
    (Preprocessing.standardize_shape img).length = 38 ∧
      ∀ row ∈ Preprocessing.standardize_shape img, row.length = 64 := by
  have e64 : (1 / 4 : ℚ) * ((((256, 153) : ℤ × ℤ).1 : ℤ) : ℚ) = 64 := by norm_num
  have e38 : (1 / 4 : ℚ) * ((((256, 153) : ℤ × ℤ).2 : ℤ) : ℚ) = 153 / 4 := by norm_num
  have h64 : (pyInt ((1 / 4 : ℚ) * ((((256, 153) : ℤ × ℤ).1 : ℤ) : ℚ))).toNat = 64 := by
    rw [e64, pyInt, if_neg (by norm_num)]
    rw [show ⌊(64 : ℚ)⌋ = ((64 : ℤ)) by rw [Int.floor_eq_iff] <;> norm_num]
    rfl
  have h38 : (pyInt ((1 / 4 : ℚ) * ((((256, 153) : ℤ × ℤ).2 : ℤ) : ℚ))).toNat = 38 := by
    rw [e38, pyInt, if_neg (by norm_num)]
    have hf : ⌊(153 / 4 : ℚ)⌋ = 38 := by
      rw [Int.floor_eq_iff] <;> norm_num
    rw [hf]
    rfl
  constructor
  · simp only [Preprocessing.standardize_shape, Preprocessing.scale_image, cv2_resize,
      List.length_map, List.length_range]
    exact h38
  · intro row hrow
    simp only [Preprocessing.standardize_shape, Preprocessing.scale_image, cv2_resize,
      List.mem_map] at hrow
    obtain ⟨r, _, rfl⟩ := hrow
    simp only [List.length_map, List.length_range]
    exact h64

/-- Witness for C3 at a concrete 2-by-2 image. -/
theorem standardize_shape_fixed_dims_w :
    (0 < ([[1, 2], [3, 4]] : QMat).length ∧
        0 < (([[1, 2], [3, 4]] : QMat).headD []).length) ∧
      ((Preprocessing.standardize_shape [[1, 2], [3, 4]]).length = 38 ∧
        ∀ row ∈ Preprocessing.standardize_shape [[1, 2], [3, 4]], row.length = 64) :=
  ⟨by decide, standardize_shape_fixed_dims [[1, 2], [3, 4]] (by decide)⟩

/-- C4: on the empty batch the code does not short-circuit: it invokes the
scaler capability on the absent feature matrix (`X = None`) and the
classifier on whatever the scaler returns, so the output is entirely
determined by the two capabilities, not fixed to `[]`. -/
theorem predict_empty_invokes_scaler_on_none (g : GaborCap)
    (clf : List FeatureVec → List ℤ) (nbins : ℕ)
    (scaler : Option (List FeatureVec) → List FeatureVec)
    (mapLabel : ℤ → String) :
    ComponentClassifier.predict g [] clf nbins scaler mapLabel =
      (clf (scaler none)).map mapLabel := rfl

/-- C9: feature assembly is deterministic — two runs of `moments_nbins` on
bit-identical input images yield identical feature vectors (the embedded
pipeline is a pure function; the source has no hidden state or
randomness). -/
theorem moments_nbins_deterministic (g : GaborCap) (img1 img2 : QMat)
    (nbins : ℕ) (h : img1 = img2) :
    FeatureExtraction.moments_nbins g img1 nbins =
      FeatureExtraction.moments_nbins g img2 nbins := by rw [h]

/-- Witness for C9 at a concrete one-pixel image. -/
theorem moments_nbins_deterministic_w :
    ([[(1 : ℚ)]] : QMat) = [[1]] ∧
      FeatureExtraction.moments_nbins gaborTriv [[1]] 16 =
        FeatureExtraction.moments_nbins gaborTriv [[1]] 16 :=
  ⟨rfl, moments_nbins_deterministic gaborTriv [[1]] [[1]] 16 rfl⟩

/-! ### C6: the Hu log-transform at a zero raw moment -/

theorem huRaw_one_get0 : (FeatureExtraction.huRaw [[(1 : ℚ)]]).get? 0 = some 0 := by
  have h20 : (mu20 [[(1 : ℚ)]] * invM00 [[(1 : ℚ)]] ^ 2 : ℚ) = 0 := by
    norm_num [mSum, m00, centroidX, centroidY, invM00, List.enum, List.enumFrom, mu20]
  have h02 : (mu02 [[(1 : ℚ)]] * invM00 [[(1 : ℚ)]] ^ 2 : ℚ) = 0 := by
    norm_num [mSum, m00, centroidX, centroidY, invM00, List.enum, List.enumFrom, mu02]
  have hn20 : nu20 [[(1 : ℚ)]] = 0 := by simp only [nu20, h20, Rat.cast_zero]
  have hn02 : nu02 [[(1 : ℚ)]] = 0 := by simp only [nu02, h02, Rat.cast_zero]
  simp only [FeatureExtraction.huRaw, List.get?_cons_zero, hn20, hn02, add_zero,
    Option.some.injEq]

/-- C6 counterexample: on the one-pixel image `[[1]]` the first component of the raw Hu
vector is exactly 0, and the log-transformed output of `moments_hu`
is NaN (`none`) in every component — no defined sentinel is substituted
anywhere. -/
theorem moments_hu_no_sentinel :
    (FeatureExtraction.huRaw [[(1 : ℚ)]]).get? 0 = some 0 ∧
      FeatureExtraction.moments_hu [[(1 : ℚ)]] = List.replicate 7 none := by
  have h20 : (mu20 [[(1 : ℚ)]] * invM00 [[(1 : ℚ)]] ^ 2 : ℚ) = 0 := by
    norm_num [mSum, m00, centroidX, centroidY, invM00, List.enum, List.enumFrom, mu20]
  have h11 : (mu11 [[(1 : ℚ)]] * invM00 [[(1 : ℚ)]] ^ 2 : ℚ) = 0 := by
    norm_num [mSum, m00, centroidX, centroidY, invM00, List.enum, List.enumFrom, mu11]
  have h02 : (mu02 [[(1 : ℚ)]] * invM00 [[(1 : ℚ)]] ^ 2 : ℚ) = 0 := by
    norm_num [mSum, m00, centroidX, centroidY, invM00, List.enum, List.enumFrom, mu02]
  have h30 : (mu30 [[(1 : ℚ)]] * invM00 [[(1 : ℚ)]] ^ 2 : ℚ) = 0 := by
    norm_num [mSum, m00, centroidX, centroidY, invM00, List.enum, List.enumFrom, mu30, mu20]
  have h21 : (mu21 [[(1 : ℚ)]] * invM00 [[(1 : ℚ)]] ^ 2 : ℚ) = 0 := by
    norm_num [mSum, m00, centroidX, centroidY, invM00, List.enum, List.enumFrom, mu21, mu20, mu11]
  have h12 : (mu12 [[(1 : ℚ)]] * invM00 [[(1 : ℚ)]] ^ 2 : ℚ) = 0 := by
    norm_num [mSum, m00, centroidX, centroidY, invM00, List.enum, List.enumFrom, mu12, mu11, mu02]
  have h03 : (mu03 [[(1 : ℚ)]] * invM00 [[(1 : ℚ)]] ^ 2 : ℚ) = 0 := by
    norm_num [mSum, m00, centroidX, centroidY, invM00, List.enum, List.enumFrom, mu03, mu02]
  have hn20 : nu20 [[(1 : ℚ)]] = 0 := by simp only [nu20, h20, Rat.cast_zero]
  have hn11 : nu11 [[(1 : ℚ)]] = 0 := by simp only [nu11, h11, Rat.cast_zero]
  have hn02 : nu02 [[(1 : ℚ)]] = 0 := by simp only [nu02, h02, Rat.cast_zero]
  have hn30 : nu30 [[(1 : ℚ)]] = 0 := by
    simp only [nu30, h30, Rat.cast_zero, zero_mul]
  have hn21 : nu21 [[(1 : ℚ)]] = 0 := by
    simp only [nu21, h21, Rat.cast_zero, zero_mul]
  have hn12 : nu12 [[(1 : ℚ)]] = 0 := by
    simp only [nu12, h12, Rat.cast_zero, zero_mul]
  have hn03 : nu03 [[(1 : ℚ)]] = 0 := by
    simp only [nu03, h03, Rat.cast_zero, zero_mul]
  refine ⟨huRaw_one_get0, ?_⟩
  simp only [FeatureExtraction.moments_hu, FeatureExtraction.huRaw,
    hn20, hn11, hn02, hn30, hn21, hn12, hn03]
  norm_num [FeatureExtraction.logTrans, List.replicate]

/-- C6 (amended): whenever a raw Hu-moment component is exactly zero, the
corresponding component of `moments_hu` is the undefined value NaN (modelled
`none`) — the code substitutes no sentinel and lets the NaN propagate into
the feature vector. -/
theorem moments_hu_zero_component_nan (img : QMat) (i : ℕ)
    (h : (FeatureExtraction.huRaw img).get? i = some 0) :
    (FeatureExtraction.moments_hu img).get? i = some none := by
  simp only [FeatureExtraction.moments_hu, List.get?_map, h, Option.map_some]
  simp [FeatureExtraction.logTrans]

/-- Witness for the amended theorem of C6 at the one-pixel image `[[1]]`. -/
theorem moments_hu_zero_component_nan_w :
    (FeatureExtraction.huRaw [[(1 : ℚ)]]).get? 0 = some 0 ∧
      (FeatureExtraction.moments_hu [[(1 : ℚ)]]).get? 0 = some none :=
  ⟨huRaw_one_get0, moments_hu_zero_component_nan [[(1 : ℚ)]] 0 huRaw_one_get0⟩

/-! ### C7: structure of the Gabor texture histogram -/

theorem zipWith_add_replicate_zero (h : List ℝ) :
    ∀ n : ℕ, h.length = n →
      List.zipWith (fun a b => a + b) (List.replicate n (0 : ℝ)) h = h := by
  induction h with
  | nil => intro n _; simp
  | cons x xs ih =>
    intro n hn
    cases n with
    | zero => simp at hn
    | succ m =>
      simp only [List.replicate, List.zipWith_cons_cons, zero_add, List.cons.injEq]
      exact ⟨trivial, ih m (by simpa using hn)⟩

/-- C7: the Gabor texture histogram is the elementwise mean of the
`nbins`-bin histograms of exactly two magnitude maps — the frontslash
response at orientation `+π/4` and the backslash response at `−π/4` — both
taken with the fixed tuning constants `denom = 4`, `frequency = 0.5`,
`bandwidth = 0.8`. -/
theorem gabor_hist_mean_of_two (g : GaborCap) (img : QMat) (nbins : ℕ) :
    FeatureExtraction.mean_exposure_hist_from_gabor g img nbins =
      List.zipWith (fun a b => (a + b) / 2)
        ((npHistogram
          (Preprocessing.angle_pass_filter g img (1 / 2) (Real.pi / 4) (4 / 5)).flatten
          nbins).map (fun (n : ℕ) => (n : ℝ)))
        ((npHistogram
          (Preprocessing.angle_pass_filter g img (1 / 2) (-(Real.pi / 4)) (4 / 5)).flatten
          nbins).map (fun (n : ℕ) => (n : ℝ))) := by
  have hth1 : Real.pi * (1 / ((FeatureExtraction.denom : ℚ) : ℝ)) = Real.pi / 4 := by
    rw [FeatureExtraction.denom]
    push_cast
    ring
  have hth2 : Real.pi * (-1 / ((FeatureExtraction.denom : ℚ) : ℝ)) = -(Real.pi / 4) := by
    rw [FeatureExtraction.denom]
    push_cast
    ring
  unfold FeatureExtraction.mean_exposure_hist_from_gabor FeatureExtraction.mean_exposure_hist
  simp only [Preprocessing.frontslash_filter, Preprocessing.backslash_filter, hth1, hth2,
    FeatureExtraction.freq, FeatureExtraction.bw, List.map_cons, List.map_nil,
    List.foldl_cons, List.foldl_nil, List.length_cons, List.length_nil]
  rw [zipWith_add_replicate_zero _ nbins (by simp [npHistogram_length])]
  rw [List.map_zipWith]
  norm_num

/-! ### C1: predict maps images to labels in order -/

theorem foldl_vstack {α : Type} (f : α → FeatureVec) (l : List α) :
    ∀ acc : List FeatureVec,
      l.foldl (fun X a => Utils.vStackMatrices X (f a)) (some acc) =
        some (acc ++ l.map f) := by
  induction l with
  | nil => intro acc; simp
  | cons x xs ih =>
    intro acc
    have hstep : Utils.vStackMatrices (some acc) (f x) = some (acc ++ [f x]) := rfl
    rw [List.foldl_cons, hstep, ih]
    simp

theorem foldl_vstack_none {α : Type} (f : α → FeatureVec) (x : α) (xs : List α) :
    (x :: xs).foldl (fun X a => Utils.vStackMatrices X (f a)) none =
      some ((x :: xs).map f) := by
  have h1 : Utils.vStackMatrices none (f x) = some [f x] := rfl
  rw [List.foldl_cons, h1, foldl_vstack]
  simp

/-- C1 (amended): for every nonempty batch and any row-wise
scaler/classifier capabilities, `predict` returns one string label per input
image, in input order: the i-th output label is the label computed from the
feature vector of the i-th input image.  The original claim quantified over
every sequence including the empty one, where it fails — the code feeds
`X = None` to the scaler and returns whatever the capabilities produce (see
the counterexample below). -/
theorem predict_preserves_order (g : GaborCap) (images : List BMat)
    (clf : List FeatureVec → List ℤ) (nbins : ℕ)
    (scaler : Option (List FeatureVec) → List FeatureVec) (mapLabel : ℤ → String)
    (s : FeatureVec → FeatureVec) (c : FeatureVec → ℤ)
    (hne : images ≠ [])
    (hs : ∀ rows, scaler (some rows) = rows.map s)
    (hc : ∀ m, clf m = m.map c) :
    ComponentClassifier.predict g images clf nbins scaler mapLabel =
      images.map (fun image => mapLabel (c (s (FeatureExtraction.moments_nbins g
        (Preprocessing.standardize_shape (ComponentClassifier.toInt16 image)) nbins)))) ∧
      (ComponentClassifier.predict g images clf nbins scaler mapLabel).length =
        images.length := by
  obtain ⟨x, xs, rfl⟩ := List.exists_cons_of_ne_nil hne
  have hmain : ComponentClassifier.predict g (x :: xs) clf nbins scaler mapLabel =
      (x :: xs).map (fun image => mapLabel (c (s (FeatureExtraction.moments_nbins g
        (Preprocessing.standardize_shape (ComponentClassifier.toInt16 image)) nbins)))) := by
    unfold ComponentClassifier.predict
    rw [foldl_vstack_none]
    dsimp only
    rw [hs, hc]
    simp [List.map_map, Function.comp]
  exact ⟨hmain, by rw [hmain]; simp⟩

/-- Concrete scaler capability for the C1 witness: identity on the rows,
`[]` on an absent matrix. -/
def scalerW : Option (List FeatureVec) → List FeatureVec := fun X => X.getD []

/-- Concrete classifier capability for the C1 witness: label 0 per row. -/
def clfW : List FeatureVec → List ℤ := fun m => m.map (fun _ => (0 : ℤ))

/-- Concrete label lookup for the C1 witness. -/
def labelW : ℤ → String := fun _ => "wire"

/-- Witness for C1 on a concrete one-image batch. -/
theorem predict_preserves_order_w :
    (([[[true]]] : List BMat) ≠ [] ∧
        (∀ rows, scalerW (some rows) = rows.map id) ∧
        (∀ m, clfW m = m.map (fun _ => (0 : ℤ)))) ∧
      (ComponentClassifier.predict gaborTriv [[[true]]] clfW 16 scalerW labelW =
          ([[[true]]] : List BMat).map (fun image =>
            labelW ((fun _ => (0 : ℤ)) (id (FeatureExtraction.moments_nbins gaborTriv
              (Preprocessing.standardize_shape (ComponentClassifier.toInt16 image)) 16)))) ∧
        (ComponentClassifier.predict gaborTriv [[[true]]] clfW 16 scalerW labelW).length =
          ([[[true]]] : List BMat).length) :=
  ⟨⟨by simp, fun rows => by simp [scalerW], fun m => rfl⟩,
    predict_preserves_order gaborTriv [[[true]]] clfW 16 scalerW labelW id
      (fun _ => 0) (by simp) (fun rows => by simp [scalerW]) (fun m => rfl)⟩

/-- Concrete scaler capability for the C1 counterexample: identity on the
rows of a present matrix (so it satisfies the row-wise contract), but it
yields a one-row matrix when handed the absent matrix `None`. -/
def scalerN : Option (List FeatureVec) → List FeatureVec := fun X => X.getD [[]]

/-- C1 counterexample: the original claim fails on the empty input sequence.
With capabilities that satisfy the row-wise contract on every actual matrix,
`predict` on `[]` still does not return `[]` — the code hands `X = None` to
the scaler and maps the classifier output of whatever comes back, here a
one-label list for a zero-image batch. -/
theorem predict_empty_breaks_length :
    (∀ rows, scalerN (some rows) = rows.map id) ∧
      (∀ m, clfW m = m.map (fun _ => (0 : ℤ))) ∧
      ComponentClassifier.predict gaborTriv [] clfW 16 scalerN labelW ≠ [] := by
  refine ⟨fun rows => by simp [scalerN], fun m => rfl, ?_⟩
  have h : ComponentClassifier.predict gaborTriv [] clfW 16 scalerN labelW =
      ["wire"] := rfl
  rw [h]
  simp

/-! ### C5 / C10: Otsu binarization -/

/-- C5: on a flat (zero-variance) image `binary_from_thresh` does not return
an all-false mask — the Otsu threshold computation fails (a single histogram
bin leaves the inter-class variance array empty and `np.argmax` raises) and
the error propagates out of `binary_from_thresh`, modelled `none`. -/
theorem binary_from_thresh_flat_raises :
    Preprocessing.binary_from_thresh [[5, 5], [5, 5]] = none := by decide

theorem foldl_min_le_init (vs : List ℤ) : ∀ v : ℤ, vs.foldl min v ≤ v := by
  induction vs with
  | nil => intro v; exact le_refl v
  | cons y ys ih =>
    intro v
    calc (y :: ys).foldl min v = ys.foldl min (min v y) := rfl
    _ ≤ min v y := ih (min v y)
    _ ≤ v := min_le_left v y

theorem foldl_min_le_mem (vs : List ℤ) :
    ∀ (v x : ℤ), x ∈ vs → vs.foldl min v ≤ x := by
  induction vs with
  | nil => intro v x hx; cases hx
  | cons y ys ih =>
    intro v x hx
    rcases List.mem_cons.mp hx with h | h
    · subst h
      calc (x :: ys).foldl min v = ys.foldl min (min v x) := rfl
      _ ≤ min v x := foldl_min_le_init ys (min v x)
      _ ≤ x := min_le_right v x
    · exact ih (min v y) x h

theorem le_foldl_max_init (vs : List ℤ) : ∀ v : ℤ, v ≤ vs.foldl max v := by
  induction vs with
  | nil => intro v; exact le_refl v
  | cons y ys ih =>
    intro v
    calc v ≤ max v y := le_max_left v y
    _ ≤ ys.foldl max (max v y) := ih (max v y)
    _ = (y :: ys).foldl max v := rfl

theorem le_foldl_max_mem (vs : List ℤ) :
    ∀ (v x : ℤ), x ∈ vs → x ≤ vs.foldl max v := by
  induction vs with
  | nil => intro v x hx; cases hx
  | cons y ys ih =>
    intro v x hx
    rcases List.mem_cons.mp hx with h | h
    · subst h
      calc x ≤ max v x := le_max_right v x
      _ ≤ ys.foldl max (max v x) := le_foldl_max_init ys (max v x)
      _ = (x :: ys).foldl max v := rfl
    · exact ih (max v y) x h

theorem histLo_le_mem (img : IMat) (x : ℤ) (hx : x ∈ flatVals img) :
    histLo img ≤ x := by
  unfold histLo
  cases hfv : flatVals img with
  | nil => rw [hfv] at hx; cases hx
  | cons v vs =>
    rw [hfv] at hx
    rcases List.mem_cons.mp hx with h | h
    · subst h; exact foldl_min_le_init vs x
    · exact foldl_min_le_mem vs v x h

theorem mem_le_histHi (img : IMat) (x : ℤ) (hx : x ∈ flatVals img) :
    x ≤ histHi img := by
  unfold histHi
  cases hfv : flatVals img with
  | nil => rw [hfv] at hx; cases hx
  | cons v vs =>
    rw [hfv] at hx
    rcases List.mem_cons.mp hx with h | h
    · subst h; exact le_foldl_max_init vs x
    · exact le_foldl_max_mem vs v x h

theorem histLo_lt_histHi (img : IMat) (x y : ℤ) (hx : x ∈ flatVals img)
    (hy : y ∈ flatVals img) (hxy : x ≠ y) : histLo img < histHi img := by
  rcases lt_or_gt_of_ne hxy with h | h
  · exact lt_of_le_of_lt (histLo_le_mem img x hx)
      (lt_of_lt_of_le h (mem_le_histHi img y hy))
  · exact lt_of_le_of_lt (histLo_le_mem img y hy)
      (lt_of_lt_of_le h (mem_le_histHi img x hx))

theorem cumsum_length (l : List ℚ) : (cumsum l).length = l.length := by
  simp [cumsum, List.length_scanl]

theorem revCumsum_length (l : List ℚ) : (revCumsum l).length = l.length := by
  simp [revCumsum, cumsum_length]

theorem otsuVariance_length (img : IMat) :
    (otsuVariance img).length = histN img - 1 := by
  simp [otsuVariance, otsuMean1, otsuMean2, otsuW1, otsuW2, otsuHC,
    otsuHist, otsuCenters, cumsum_length, revCumsum_length,
    List.length_zipWith, List.length_zip, List.length_dropLast, List.length_drop]

/-- C10: for every non-flat integer image (two distinct pixel values), the
Otsu threshold computation succeeds and the mask of `binary_from_thresh` is
true exactly for pixels strictly below the computed threshold; a pixel whose
value equals the threshold is classified as non-ink (`false`). -/
theorem binary_from_thresh_strictly_below (img : IMat) (x y : ℤ)
    (hx : x ∈ flatVals img) (hy : y ∈ flatVals img) (hxy : x ≠ y) :
    ∃ t : ℚ, threshold_otsu img = some t ∧
      Preprocessing.binary_from_thresh img =
        some (img.map (fun row => row.map (fun v => decide ((v : ℚ) < t)))) ∧
      ∀ v : ℤ, (v : ℚ) = t → decide ((v : ℚ) < t) = false := by
  have hlt : histLo img < histHi img := histLo_lt_histHi img x y hx hy hxy
  have hn : 2 ≤ histN img := by unfold histN; omega
  have hvlen : (otsuVariance img).length = histN img - 1 := otsuVariance_length img
  have hnil : otsuVariance img ≠ [] := by
    intro h
    rw [h] at hvlen
    simp at hvlen
    omega
  have hne : (otsuVariance img).isEmpty = false := by
    cases hve : (otsuVariance img).isEmpty
    · rfl
    · exact absurd (List.isEmpty_iff.mp hve) hnil
  have hthresh : threshold_otsu img =
      some ((otsuCenters img).dropLast.getD (npArgmax (otsuVariance img)) 0) := by
    unfold threshold_otsu
    rw [hne]
    rfl
  refine ⟨(otsuCenters img).dropLast.getD (npArgmax (otsuVariance img)) 0,
    hthresh, ?_, ?_⟩
  · unfold Preprocessing.binary_from_thresh
    rw [hthresh]
    rfl
  · intro v hv
    rw [hv]
    exact decide_eq_false (lt_irrefl _)

/-- Witness for C10 on the concrete image `[[0, 1]]` (whose Otsu threshold
is 0: the pixel equal to the threshold comes out non-ink). -/
theorem binary_from_thresh_strictly_below_w :
    ((0 : ℤ) ∈ flatVals [[0, 1]] ∧ (1 : ℤ) ∈ flatVals [[0, 1]] ∧ (0 : ℤ) ≠ 1) ∧
      (∃ t : ℚ, threshold_otsu [[0, 1]] = some t ∧
        Preprocessing.binary_from_thresh [[0, 1]] =
          some (([[0, 1]] : IMat).map (fun row => row.map
            (fun v => decide ((v : ℚ) < t)))) ∧
        ∀ v : ℤ, (v : ℚ) = t → decide ((v : ℚ) < t) = false) :=
  ⟨⟨by decide, by decide, by decide⟩,
    binary_from_thresh_strictly_below [[0, 1]] 0 1 (by decide) (by decide) (by decide)⟩

end SmarterBoard
